import Mathlib

/-!
Verification of the layer-extraction core of the videoai-template-from-flat-image
repository (app/services/image_processor.py, gpt_service.py, gemini_service.py and
extraction_orchestrator.py), shallowly embedded in Lean.

Modelling conventions, matching the source:
* An RGBA image (a decoded PIL image / numpy array) is a width, a height and a
  pixel function indexed (row, column) = (y, x); byte channels are Nat.
  Encoding/decoding of PNG byte buffers is treated as the identity: an
  ExtractionResult keeps the cropped raster itself where the code keeps a
  base64 PNG of exactly that raster.
* numpy boolean masks are Nat -> Nat -> Bool together with explicit grid
  bounds; every operation returns false outside the grid, as the arrays are
  simply absent there.
* scipy floating point kernels that cannot be reproduced exactly in an exact
  field (the gaussian_filter blur with its erf-derived weights, and the LANCZOS
  resampling of PIL.Image.resize) are passed in as function parameters; every
  integer branch, threshold, window shape and boundary rule around them is
  embedded concretely over the rationals.
* The two network services (OpenAI, Gemini) are modelled by their responses: a
  response that Python would find falsy or unparsable is Option.none.
-/

/-! ## Basic data model (app/models/schemas.py) -/

/-- The Literal type of an element in schemas.ElementDescription. -/
inductive ElementType where
  | text
  | image
  | shape
  | background
deriving DecidableEq

/-- schemas.ElementDescription: what GPT returns for one visual element. -/
structure ElementDescription where
  type : ElementType
  name : String
  description : String
deriving DecidableEq

/-- One RGBA pixel, byte channels (the numpy array is uint8). -/
structure Pix where
  r : Nat
  g : Nat
  b : Nat
  a : Nat
deriving DecidableEq

/-- A decoded RGBA raster: numpy array of shape (H, W, 4), indexed pix y x. -/
structure Img where
  W : Nat
  H : Nat
  pix : Nat → Nat → Pix

/-- schemas.ExtractionResult: position, size and the cropped raster (the code
stores the raster as a base64 PNG data URI in the src field). -/
structure ExtractionResult where
  x : Nat
  y : Nat
  width : Nat
  height : Nat
  image : Img

/-- schemas.ExtractedElement without the uuid id field (the id is a fresh
uuid4 string, irrelevant to every property treated here). -/
structure ExtractedElement where
  type : ElementType
  name : String
  description : String
  x : Nat
  y : Nat
  width : Nat
  height : Nat
  image : Img

/-- The descriptor metadata an extracted element carries. -/
def metaOf (e : ExtractedElement) : ElementType × String × String :=
  (e.type, e.name, e.description)

/-- The metadata of an element description. -/
def edMeta (d : ElementDescription) : ElementType × String × String :=
  (d.type, d.name, d.description)

/-- Building an ExtractedElement from a descriptor and an extraction result,
as the orchestrator does after each extraction step. -/
def mkExtracted (d : ElementDescription) (r : ExtractionResult) : ExtractedElement :=
  ⟨d.type, d.name, d.description, r.x, r.y, r.width, r.height, r.image⟩

/-! ## Binary masks and morphology (image_processor._clean_mask)

The structuring element is generate_binary_structure(2, 2): the full 3x3
neighbourhood, centre included.  scipy's binary_erosion / binary_dilation with
the default border_value=0 treat everything outside the array as 0, so an
eroded pixel must have its whole 3x3 neighbourhood inside the grid and true. -/

/-- A numpy boolean array of shape (H, W); false stands outside the grid. -/
abbrev Mask := Nat → Nat → Bool

/-- The three offsets 0,1,2 of a 3x3 window; the sampled index is p + i - 1. -/
def offs3 : List Nat := [0, 1, 2]

/-- The sampled coordinate p + i - 1 exists inside an axis of size n. -/
def offIn (n p i : Nat) : Bool := decide (1 ≤ p + i) && decide (p + i - 1 < n)

/-- The pixel (y, x) lies inside the (H, W) grid. -/
def inGridB (W H y x : Nat) : Bool := decide (y < H) && decide (x < W)

/-- scipy.ndimage.binary_erosion with the full 3x3 structure, border_value 0,
one iteration. -/
def erode (W H : Nat) (m : Mask) : Mask := fun y x =>
  inGridB W H y x &&
    offs3.all fun i => offs3.all fun j =>
      offIn H y i && offIn W x j && m (y + i - 1) (x + j - 1)

/-- scipy.ndimage.binary_dilation with the full 3x3 structure, border_value 0,
one iteration. -/
def dilate (W H : Nat) (m : Mask) : Mask := fun y x =>
  inGridB W H y x &&
    offs3.any fun i => offs3.any fun j =>
      offIn H y i && offIn W x j && m (y + i - 1) (x + j - 1)

/-- Two erosions, as in the initial artifact-shrinking step of _clean_mask. -/
def erode2 (W H : Nat) (m : Mask) : Mask := erode W H (erode W H m)

/-- np.any over the grid: the mask holds at least one true pixel. -/
def maskNonemptyB (W H : Nat) (m : Mask) : Bool :=
  (List.range H).any fun y => (List.range W).any fun x => m y x

/-- The mask is all-false over the grid (the empty mask). -/
def maskEmptyB (W H : Nat) (m : Mask) : Bool :=
  (List.range H).all fun y => (List.range W).all fun x => !(m y x)

/-! ### Connected components (ndimage.label)

The code calls ndimage.label(mask) with no structure argument, so labelling
uses scipy's default cross-shaped structure: 4-connectivity.  conn4B n p q
holds when a path of at most n 4-neighbour steps through true in-grid pixels
joins p to q; with fuel W * H this is exactly membership of q in the labelled
component of p.  The spec speaks of 8-connected regions, so the 8-connected
relation is defined as well for stating its claims. -/

/-- The window offsets of the 4-neighbourhood (sampled index is p + d - 1). -/
def offPairs4 : List (Nat × Nat) := [(0, 1), (1, 0), (1, 2), (2, 1)]

/-- The window offsets of the 8-neighbourhood, centre excluded. -/
def offPairs8 : List (Nat × Nat) :=
  [(0, 0), (0, 1), (0, 2), (1, 0), (1, 2), (2, 0), (2, 1), (2, 2)]

/-- Fuelled 4-connectivity through true pixels of the mask. -/
def conn4B (W H : Nat) (m : Mask) : Nat → Nat × Nat → Nat × Nat → Bool
  | 0, p, q => decide (p = q)
  | n + 1, p, q =>
    decide (p = q) ||
      offPairs4.any fun d =>
        offIn H p.1 d.1 && offIn W p.2 d.2 &&
          m (p.1 + d.1 - 1) (p.2 + d.2 - 1) &&
          conn4B W H m n (p.1 + d.1 - 1, p.2 + d.2 - 1) q

/-- Fuelled 8-connectivity through true pixels of the mask. -/
def conn8B (W H : Nat) (m : Mask) : Nat → Nat × Nat → Nat × Nat → Bool
  | 0, p, q => decide (p = q)
  | n + 1, p, q =>
    decide (p = q) ||
      offPairs8.any fun d =>
        offIn H p.1 d.1 && offIn W p.2 d.2 &&
          m (p.1 + d.1 - 1) (p.2 + d.2 - 1) &&
          conn8B W H m n (p.1 + d.1 - 1, p.2 + d.2 - 1) q

/-- Every grid pixel once: index k stands for the pixel (k / W, k % W). -/
def gridList (W H : Nat) : List (Nat × Nat) :=
  (List.range (H * W)).map fun k => (k / W, k % W)

/-- np.sum(labeled == label of p): the size of the 4-connected component of p
(W * H steps reach every pixel of a component). -/
def compSize4 (W H : Nat) (m : Mask) (p : Nat × Nat) : Nat :=
  ((gridList W H).filter fun q => m q.1 q.2 && conn4B W H m (W * H) p q).length

/-- The size of the 8-connected component of p. -/
def compSize8 (W H : Nat) (m : Mask) (p : Nat × Nat) : Nat :=
  ((gridList W H).filter fun q => m q.1 q.2 && conn8B W H m (W * H) p q).length

/-- The mask holds an 8-connected region of at least n pixels (the spec's
notion of a region surviving the minimum-region-size floor). -/
def hasRegion8 (W H : Nat) (m : Mask) (n : Nat) : Prop :=
  ∃ p : Nat × Nat, p.1 < H ∧ p.2 < W ∧ m p.1 p.2 = true ∧ n ≤ compSize8 W H m p

/-- The mask holds a 4-connected region of at least n pixels (the connectivity
ndimage.label actually uses in the code). -/
def hasRegion4 (W H : Nat) (m : Mask) (n : Nat) : Prop :=
  ∃ p : Nat × Nat, p.1 < H ∧ p.2 < W ∧ m p.1 p.2 = true ∧ n ≤ compSize4 W H m p

/-- image_processor.MIN_REGION_SIZE. -/
def MIN_REGION_SIZE : Nat := 200

/-- The union of the components of the base mask of size at least the floor:
pointwise, a pixel survives iff it is true and its labelled component is big
enough.  This is the loop over labels of _clean_mask. -/
def keepBig (W H : Nat) (base : Mask) (floor : Nat) : Mask := fun y x =>
  base y x && decide (floor ≤ compSize4 W H base (y, x))

/-- The cleaned_mask value of _clean_mask just before the morphological
smoothing: regions of the twice-eroded mask of size at least
MIN_REGION_SIZE, and if that union is empty, the fallback regions of the
original mask of size at least MIN_REGION_SIZE // 2. -/
def cleaned_stage (W H : Nat) (m : Mask) : Mask :=
  if maskNonemptyB W H (keepBig W H (erode2 W H m) MIN_REGION_SIZE) = true then
    keepBig W H (erode2 W H m) MIN_REGION_SIZE
  else
    keepBig W H m (MIN_REGION_SIZE / 2)

/-- image_processor._clean_mask.  The branch on num_features == 0 is the
branch on the twice-eroded mask being all-false (ndimage.label returns zero
features exactly when its input has no true pixel); then closing with
iterations=3 (three dilations then three erosions), dilation with
iterations=2 and opening with iterations=1 (one erosion then one dilation),
all with border_value 0. -/
def clean_mask (W H : Nat) (m : Mask) : Mask :=
  if maskNonemptyB W H (erode2 W H m) = true then
    dilate W H (erode W H (dilate W H (dilate W H
      (erode W H (erode W H (erode W H
        (dilate W H (dilate W H (dilate W H (cleaned_stage W H m))))))))))
  else
    m

/-! ## SSIM difference mask (image_processor.extract_element, lines 37-71)

skimage.metrics.structural_similarity(blurred1, blurred2, full=True,
channel_axis=2, data_range=255) with its defaults: win_size 7, uniform
(non-gaussian) windows computed by scipy.ndimage.uniform_filter in its
default boundary mode reflect, sample covariance normalisation
49 / 48, C1 = (0.01 * 255)^2, C2 = (0.03 * 255)^2.  It is computed per
colour channel; the code then averages the three channels and thresholds at
SSIM_THRESHOLD = 0.70.  The gaussian_filter blur applied before (sigma 1.5)
has irrational weights, so it is a parameter (see the file comment). -/

/-- One colour channel field over the plane, rational valued. -/
abbrev ChanImg := Nat → Nat → ℚ × ℚ × ℚ

/-- The opaque gaussian_filter blur: given the grid size, a float image to a
float image.  Any instantiation models one concrete float kernel. -/
abbrev Blur := Nat → Nat → ChanImg → ChanImg

/-- The opaque PIL LANCZOS resampling: image and target width, height. -/
abbrev Resize := Img → Nat → Nat → Img

/-- The RGB channels of an image as exact rationals (float64 conversion). -/
def toFloat3 (img : Img) : ChanImg := fun y x =>
  (((img.pix y x).r : ℚ), ((img.pix y x).g : ℚ), ((img.pix y x).b : ℚ))

/-- scipy boundary mode reflect on one axis of size n: indices reflect with
period 2n about the array edges, edge samples repeated. -/
def reflect (n : Nat) (i : Int) : Nat :=
  if n = 0 then 0
  else
    let k := (i.emod (2 * n)).toNat
    if k < n then k else 2 * n - 1 - k

/-- SSIM_THRESHOLD = 0.70. -/
def SSIM_THRESHOLD : ℚ := 7 / 10

/-- The SSIM stabiliser C1 = (0.01 * 255)^2. -/
def ssimC1 : ℚ := 2601 / 400

/-- The SSIM stabiliser C2 = (0.03 * 255)^2. -/
def ssimC2 : ℚ := 23409 / 400

/-- The sample covariance normalisation NP / (NP - 1) with NP = 49. -/
def covNorm : ℚ := 49 / 48

/-- The 7x7 window of uniform_filter. -/
def win7 : Finset (Nat × Nat) := Finset.range 7 ×ˢ Finset.range 7

/-- The window sample of a field at offset d around (y, x), boundary
reflected. -/
def winSample (W H : Nat) (f : Nat → Nat → ℚ) (y x : Nat) (d : Nat × Nat) : ℚ :=
  f (reflect H ((y : Int) + (d.1 : Int) - 3)) (reflect W ((x : Int) + (d.2 : Int) - 3))

/-- The sum of one 7x7 window. -/
def winSum (W H : Nat) (f : Nat → Nat → ℚ) (y x : Nat) : ℚ :=
  ∑ d ∈ win7, winSample W H f y x d

/-- scipy.ndimage.uniform_filter with size 7: the mean of the window. -/
def filt (W H : Nat) (f : Nat → Nat → ℚ) (y x : Nat) : ℚ :=
  winSum W H f y x / 49

/-- The per-pixel SSIM score of one channel of the two (blurred) images, as
structural_similarity computes it with full=True: with ux, uy the window
means, uxx, uyy, uxy the window means of the products and vx, vy, vxy the
sample (co)variances covNorm * (uxy - ux * uy), the score is
(2 ux uy + C1)(2 vxy + C2) / ((ux^2 + uy^2 + C1)(vx + vy + C2)). -/
def ssimS (W H : Nat) (f g : Nat → Nat → ℚ) (y x : Nat) : ℚ :=
  ((2 * filt W H f y x * filt W H g y x + ssimC1) *
      (2 * (covNorm * (filt W H (fun u v => f u v * g u v) y x -
        filt W H f y x * filt W H g y x)) + ssimC2)) /
    ((filt W H f y x * filt W H f y x + filt W H g y x * filt W H g y x + ssimC1) *
      (covNorm * (filt W H (fun u v => f u v * f u v) y x -
         filt W H f y x * filt W H f y x) +
       covNorm * (filt W H (fun u v => g u v * g u v) y x -
         filt W H g y x * filt W H g y x) + ssimC2))

/-- diff_gray < SSIM_THRESHOLD: the mean over the three channel SSIM scores
of the blurred images, thresholded.  This is the raw changed-pixel mask of
extract_element before _clean_mask. -/
def ssim_mask (blur : Blur) (a b : Img) : Mask := fun y x =>
  decide ((ssimS a.W a.H (fun u v => (blur a.W a.H (toFloat3 a) u v).1)
             (fun u v => (blur a.W a.H (toFloat3 b) u v).1) y x
           + ssimS a.W a.H (fun u v => (blur a.W a.H (toFloat3 a) u v).2.1)
               (fun u v => (blur a.W a.H (toFloat3 b) u v).2.1) y x
           + ssimS a.W a.H (fun u v => (blur a.W a.H (toFloat3 a) u v).2.2)
               (fun u v => (blur a.W a.H (toFloat3 b) u v).2.2) y x) / 3
          < SSIM_THRESHOLD)

/-! ## Carving and trimming (extract_element lines 73-78, _trim_and_encode) -/

/-- result_array: zeros_like(original), original pixels copied where the mask
is true; every non-selected pixel keeps all four zero channels. -/
def carve (mask : Mask) (orig : Img) : Img :=
  ⟨orig.W, orig.H, fun y x => if mask y x then orig.pix y x else ⟨0, 0, 0, 0⟩⟩

/-- The pixels PIL.Image.getbbox considers occupied: with Pillow's default
alpha_only=True on an RGBA image, the pixels of nonzero alpha. -/
def occupied (img : Img) : Finset (Nat × Nat) :=
  (Finset.range img.H ×ˢ Finset.range img.W).filter fun p => (img.pix p.1 p.2).a ≠ 0

/-- PIL.Image.getbbox: none when fully transparent, else
(left, upper, right, lower), right and lower exclusive. -/
def getbbox (img : Img) : Option (Nat × Nat × Nat × Nat) :=
  if h : (occupied img).Nonempty then
    some ((occupied img).inf' h Prod.snd, (occupied img).inf' h Prod.fst,
          (occupied img).sup' h Prod.snd + 1, (occupied img).sup' h Prod.fst + 1)
  else
    none

/-- PIL.Image.crop to the box (l, u, r, lo). -/
def crop (img : Img) (l u r lo : Nat) : Img :=
  ⟨r - l, lo - u, fun y x => img.pix (u + y) (l + x)⟩

/-- image_processor._trim_and_encode: the bbox of the nonzero-alpha region,
cropped, or the untrimmed buffer at (0, 0) when no such pixel exists. -/
def trim_and_encode (img : Img) : ExtractionResult :=
  match getbbox img with
  | none => ⟨0, 0, img.W, img.H, img⟩
  | some (l, u, r, lo) => ⟨l, u, r - l, lo - u, crop img l u r lo⟩

/-- image_processor.extract_full_image: the whole current image as a result
at the origin. -/
def extract_full_image (img : Img) : ExtractionResult :=
  ⟨0, 0, img.W, img.H, img⟩

/-- The modified image resized to the original size when the sizes differ
(extract_element lines 40-41). -/
def resizedOf (resize : Resize) (a b : Img) : Img :=
  if b.W = a.W ∧ b.H = a.H then b else resize b a.W a.H

/-- image_processor.extract_element.  none models the ValueError
structural_similarity raises when a spatial dimension is smaller than its
7-pixel window; otherwise the SSIM mask is cleaned, the original is carved
and the result trimmed. -/
def extract_element (blur : Blur) (resize : Resize) (a b : Img) :
    Option ExtractionResult :=
  if a.W < 7 ∨ a.H < 7 then none
  else
    some (trim_and_encode
      (carve (clean_mask a.W a.H (ssim_mask blur a (resizedOf resize a b))) a))

/-! ## GPT service (app/services/gpt_service.py)

Each call is modelled by its parsed response: none for a falsy content or a
missing elements key is folded into the list it yields. -/

/-- gpt_service.describe_elements: an empty or failed response yields the
empty element list (no retry); otherwise the parsed elements. -/
def describe_elements (resp : Option (List ElementDescription)) :
    List ElementDescription :=
  match resp with
  | none => []
  | some es => es

/-- gpt_service.update_element_references: a falsy content or an empty
elements array falls back to the prior remaining list unchanged; otherwise
the parsed elements are taken as-is (no count validation). -/
def update_element_references (resp : Option (List ElementDescription))
    (remaining : List ElementDescription) : List ElementDescription :=
  match resp with
  | none => remaining
  | some [] => remaining
  | some es => es

/-! ## Gemini service retry loop (gemini_service._edit_image) -/

/-- gemini_service.MAX_RETRIES. -/
def MAX_RETRIES : Nat := 3

/-- gemini_service.RETRY_DELAY in seconds. -/
def RETRY_DELAY : ℚ := 1

/-- The attempt loop of _edit_image: the oracle is the Gemini response per
attempt (none for every ValueError case: no candidates, no content, no
inline image part).  Yields the outcome, the number of attempts made and the
list of backoff delays slept, delay = RETRY_DELAY * (attempt + 1). -/
def edit_image_go {α : Type} (oracle : Nat → Option α) :
    Nat → Nat → Option α × Nat × List ℚ
  | attempt, left =>
    match oracle attempt with
    | some v => (some v, attempt + 1, [])
    | none =>
      match left with
      | 0 => (none, attempt + 1, [])
      | l + 1 =>
        let r := edit_image_go oracle (attempt + 1) l
        (r.1, r.2.1, RETRY_DELAY * ((attempt : ℚ) + 1) :: r.2.2)

/-- gemini_service._edit_image: up to MAX_RETRIES attempts, sleeping between
failed attempts, the last failure raising (outcome none). -/
def edit_image {α : Type} (oracle : Nat → Option α) : Option α × Nat × List ℚ :=
  edit_image_go oracle 0 (MAX_RETRIES - 1)

/-! ## Orchestrator (app/services/extraction_orchestrator.py)

The two AI collaborators are oracles: isolate and remove yield the edited
image Gemini would return, reconcileRaw the parsed GPT response of
update_element_references.  The while loop is fuelled; running means the
fuel ran out with the loop still going, crash models a raised exception
(the unreachable negative-index error on an empty list, or the
structural_similarity ValueError on a too-small image). -/

/-- The external collaborator calls the peel loop makes. -/
structure Collaborators where
  isolate : Img → ElementDescription → Img
  remove : Img → ElementDescription → Img
  reconcileRaw : Img → List ElementDescription → Option (List ElementDescription)

/-- The outcome of the fuelled peel loop. -/
inductive RunResult where
  | done (layers : List ExtractedElement)
  | crash
  | running

/-- The while loop of extract_all_elements: single remaining descriptor means
full-canvas extraction and stop; otherwise the last (topmost) descriptor is
isolated, extracted and removed, the list shrunk by its last element, and
the remaining descriptors reconciled against the new image state. -/
def extract_loop (blur : Blur) (resize : Resize) (C : Collaborators) :
    Nat → Img → List ElementDescription → List ExtractedElement → RunResult
  | 0, _, _, _ => .running
  | fuel + 1, img, descs, acc =>
    match descs with
    | [] => .crash
    | [d] => .done (acc ++ [mkExtracted d (extract_full_image img)])
    | d :: d2 :: rest =>
      let cur := (d :: d2 :: rest).getLast (by simp)
      match extract_element blur resize img (C.isolate img cur) with
      | none => .crash
      | some ex =>
        let acc2 := acc ++ [mkExtracted cur ex]
        let img2 := C.remove img cur
        let remaining := (d :: d2 :: rest).dropLast
        if remaining = [] then .done acc2
        else
          extract_loop blur resize C fuel img2
            (update_element_references (C.reconcileRaw img2 remaining) remaining) acc2

/-- extraction_orchestrator.extract_all_elements, from the initial describe
response onwards: an empty description list returns the empty result; the
loop's accumulated layers (extraction order, topmost first) are reversed
into bottom-to-top order. -/
def extract_all_elements (blur : Blur) (resize : Resize) (C : Collaborators)
    (fuel : Nat) (img : Img) (described : List ElementDescription) : RunResult :=
  if described.isEmpty then .done []
  else
    match extract_loop blur resize C fuel img described [] with
    | .done l => .done l.reverse
    | r => r

/-- The everywhere-true mask (the counterexample grid is fully selected). -/
def fullMask : Mask := fun _ _ => true

/-! ## Concrete instances used by witnesses and counterexamples -/

/-- The identity instantiation of the opaque blur parameter. -/
def blur0 : Blur := fun _ _ f => f

/-- A resize instantiation that installs the target size. -/
def resize0 : Resize := fun img w h => ⟨w, h, img.pix⟩

/-- An opaque 8 x 8 white canvas, large enough for the SSIM window. -/
def white8 : Img := ⟨8, 8, fun _ _ => ⟨255, 255, 255, 255⟩⟩

/-- An 8 x 8 black canvas. -/
def black8 : Img := ⟨8, 8, fun _ _ => ⟨0, 0, 0, 255⟩⟩

/-- A 2 x 1 buffer whose first pixel has colour but zero alpha: no pixel has
nonzero alpha, yet a colour channel is nonzero. -/
def img2x1 : Img :=
  ⟨2, 1, fun _ x => if x = 0 then ⟨255, 0, 0, 0⟩ else ⟨0, 0, 0, 0⟩⟩

/-- A concrete bottom descriptor. -/
def dBg : ElementDescription := ⟨ElementType.background, "bg", "the backdrop"⟩

/-- A concrete middle descriptor. -/
def dShape : ElementDescription := ⟨ElementType.shape, "disc", "a blue disc"⟩

/-- A concrete top descriptor. -/
def dText : ElementDescription := ⟨ElementType.text, "title", "the headline"⟩

/-- Collaborators whose edits keep the image and whose reconcile response
reports every candidate still visible (every call succeeds). -/
def idC : Collaborators := ⟨fun i _ => i, fun i _ => i, fun _ c => some c⟩

/-- Collaborators whose reconcile response always reports the same two
descriptors: a non-shrinking (contract-violating) reconcile collaborator. -/
def growC : Collaborators := ⟨fun i _ => i, fun i _ => i, fun _ _ => some [dBg, dBg]⟩

/-- Collaborators whose reconcile call always fails (empty response). -/
def noneC : Collaborators := ⟨fun i _ => i, fun i _ => i, fun _ _ => none⟩

/-! ## Morphology lemmas -/

/-- An eroded pixel has both horizontal neighbours inside the grid. -/
lemma erode_xbounds {W H : Nat} {m : Mask} {y x : Nat}
    (h : erode W H m y x = true) : 1 ≤ x ∧ x + 1 < W := by
  simp only [erode, offs3, inGridB, offIn, List.all_cons, List.all_nil,
    Bool.and_eq_true, Bool.and_true, decide_eq_true_eq] at h
  omega

/-- An eroded pixel keeps its right neighbour true in the source mask. -/
lemma erode_right {W H : Nat} {m : Mask} {y x : Nat}
    (h : erode W H m y x = true) : m y (x + 1) = true := by
  simp only [erode, offs3, inGridB, offIn, List.all_cons, List.all_nil,
    Bool.and_eq_true, Bool.and_true, decide_eq_true_eq] at h
  have := h.2.2.1.2.2.2
  simpa using this

/-- An eroded pixel keeps its left neighbour true in the source mask. -/
lemma erode_left {W H : Nat} {m : Mask} {y x : Nat}
    (h : erode W H m y x = true) : m y (x - 1) = true := by
  simp only [erode, offs3, inGridB, offIn, List.all_cons, List.all_nil,
    Bool.and_eq_true, Bool.and_true, decide_eq_true_eq] at h
  have := h.2.2.1.1.2
  simpa using this

/-- On a grid narrower than the 7 columns three erosions need, a triply
eroded mask is everywhere false, whatever the mask. -/
lemma erode3_narrow {W H : Nat} {m : Mask} (hW : W < 7) :
    ∀ y x, erode W H (erode W H (erode W H m)) y x = false := by
  intro y x
  by_contra hc
  have h3 : erode W H (erode W H (erode W H m)) y x = true := by
    revert hc; cases erode W H (erode W H (erode W H m)) y x <;> simp
  have hb3 := erode_xbounds h3
  have h2r : erode W H (erode W H m) y (x + 1) = true := erode_right h3
  have h1r : erode W H m y (x + 2) = true := by
    have := erode_right h2r; simpa [Nat.add_assoc] using this
  have hbr := erode_xbounds h1r
  have h2l : erode W H (erode W H m) y (x - 1) = true := erode_left h3
  have hb2 := erode_xbounds h2l
  have h1l : erode W H m y (x - 1 - 1) = true := erode_left h2l
  have hbl := erode_xbounds h1l
  omega

/-- Erosion of an everywhere-false mask is everywhere false. -/
lemma erode_ptFalse {W H : Nat} {m : Mask} (hm : ∀ y x, m y x = false) :
    ∀ y x, erode W H m y x = false := by
  intro y x
  simp [erode, offs3, hm]

/-- Dilation of an everywhere-false mask is everywhere false. -/
lemma dilate_ptFalse {W H : Nat} {m : Mask} (hm : ∀ y x, m y x = false) :
    ∀ y x, dilate W H m y x = false := by
  intro y x
  simp [dilate, offs3, hm]

/-- maskNonemptyB read as an existence statement. -/
lemma maskNonemptyB_iff {W H : Nat} {m : Mask} :
    maskNonemptyB W H m = true ↔ ∃ y x, y < H ∧ x < W ∧ m y x = true := by
  simp only [maskNonemptyB, List.any_eq_true, List.mem_range]
  constructor
  · rintro ⟨y, hy, x, hx, hm⟩; exact ⟨y, x, hy, hx, hm⟩
  · rintro ⟨y, x, hy, hx, hm⟩; exact ⟨y, hy, x, hx, hm⟩

/-- An everywhere-false mask is reported empty by maskNonemptyB. -/
lemma maskNonemptyB_false_of {W H : Nat} {m : Mask}
    (hm : ∀ y x, m y x = false) : maskNonemptyB W H m = false := by
  cases h : maskNonemptyB W H m
  · rfl
  · obtain ⟨y, x, _, _, hx⟩ := maskNonemptyB_iff.mp h
    rw [hm y x] at hx
    exact absurd hx (by simp)

/-- An everywhere-false mask is the empty mask. -/
lemma maskEmptyB_of {W H : Nat} {m : Mask}
    (hm : ∀ y x, m y x = false) : maskEmptyB W H m = true := by
  simp [maskEmptyB, List.all_eq_true, hm]

/-- _clean_mask on a raw mask with no true pixel takes the num_features == 0
early return and yields the mask unchanged. -/
lemma clean_mask_ptFalse {W H : Nat} {m : Mask} (hm : ∀ y x, m y x = false) :
    clean_mask W H m = m := by
  have h2 : ∀ y x, erode2 W H m y x = false := by
    intro y x
    exact erode_ptFalse (erode_ptFalse hm) y x
  unfold clean_mask
  rw [if_neg]
  rw [maskNonemptyB_false_of h2]
  simp

/-- On a grid narrower than 7 columns, whenever the twice-eroded mask is
nonempty (so the early return is not taken), the closing's three erosions
empty the mask and _clean_mask returns the all-false mask. -/
lemma clean_mask_narrow {W H : Nat} {m : Mask} (hW : W < 7)
    (hne : maskNonemptyB W H (erode2 W H m) = true) :
    ∀ y x, clean_mask W H m y x = false := by
  intro y x
  unfold clean_mask
  rw [if_pos hne]
  have h3 : ∀ y x,
      erode W H (erode W H (erode W H
        (dilate W H (dilate W H (dilate W H (cleaned_stage W H m)))))) y x = false :=
    fun y x => erode3_narrow hW y x
  exact dilate_ptFalse (erode_ptFalse (dilate_ptFalse (dilate_ptFalse h3))) y x

/-! ## Connectivity over a full rectangle -/

/-- In the everywhere-true mask, any two grid pixels within combined
Manhattan distance n are 4-connected with fuel n. -/
lemma conn4_full {W H : Nat} : ∀ n py px qy qx, py < H → px < W → qy < H → qx < W →
    (qy - py) + (py - qy) + (qx - px) + (px - qx) ≤ n →
    conn4B W H fullMask n (py, px) (qy, qx) = true := by
  intro n
  induction n with
  | zero =>
    intro py px qy qx _ _ _ _ hd
    have h1 : py = qy := by omega
    have h2 : px = qx := by omega
    subst h1; subst h2
    simp [conn4B]
  | succ n ih =>
    intro py px qy qx hpy hpx hqy hqx hd
    by_cases heq : py = qy ∧ px = qx
    · obtain ⟨h1, h2⟩ := heq
      subst h1; subst h2
      simp [conn4B]
    · simp only [conn4B, Bool.or_eq_true, List.any_eq_true, decide_eq_true_eq,
        Bool.and_eq_true]
      right
      rcases Nat.lt_trichotomy py qy with hlt | hyeq | hgt
      · refine ⟨(2, 1), by simp [offPairs4], ⟨⟨?_, ?_⟩, rfl⟩, ?_⟩
        · simp only [offIn, Bool.and_eq_true, decide_eq_true_eq]; omega
        · simp only [offIn, Bool.and_eq_true, decide_eq_true_eq]; omega
        · have e1 : py + 2 - 1 = py + 1 := by omega
          have e2 : px + 1 - 1 = px := by omega
          rw [e1, e2]
          exact ih (py + 1) px qy qx (by omega) hpx hqy hqx (by omega)
      · rcases Nat.lt_trichotomy px qx with hxlt | hxeq | hxgt
        · refine ⟨(1, 2), by simp [offPairs4], ⟨⟨?_, ?_⟩, rfl⟩, ?_⟩
          · simp only [offIn, Bool.and_eq_true, decide_eq_true_eq]; omega
          · simp only [offIn, Bool.and_eq_true, decide_eq_true_eq]; omega
          · have e1 : py + 1 - 1 = py := by omega
            have e2 : px + 2 - 1 = px + 1 := by omega
            rw [e1, e2]
            exact ih py (px + 1) qy qx hpy (by omega) hqy hqx (by omega)
        · exact absurd ⟨hyeq, hxeq⟩ heq
        · refine ⟨(1, 0), by simp [offPairs4], ⟨⟨?_, ?_⟩, rfl⟩, ?_⟩
          · simp only [offIn, Bool.and_eq_true, decide_eq_true_eq]; omega
          · simp only [offIn, Bool.and_eq_true, decide_eq_true_eq]; omega
          · have e1 : py + 1 - 1 = py := by omega
            have e2 : px + 0 - 1 = px - 1 := by omega
            rw [e1, e2]
            exact ih py (px - 1) qy qx hpy (by omega) hqy hqx (by omega)
      · refine ⟨(0, 1), by simp [offPairs4], ⟨⟨?_, ?_⟩, rfl⟩, ?_⟩
        · simp only [offIn, Bool.and_eq_true, decide_eq_true_eq]; omega
        · simp only [offIn, Bool.and_eq_true, decide_eq_true_eq]; omega
        · have e1 : py + 0 - 1 = py - 1 := by omega
          have e2 : px + 1 - 1 = px := by omega
          rw [e1, e2]
          exact ih (py - 1) px qy qx (by omega) hpx hqy hqx (by omega)

/-- Every 4-connection is an 8-connection (the 4-neighbourhood offsets are
among the 8-neighbourhood offsets). -/
lemma conn8_of_conn4 {W H : Nat} {m : Mask} :
    ∀ n p q, conn4B W H m n p q = true → conn8B W H m n p q = true := by
  intro n
  induction n with
  | zero => intro p q h; simpa [conn8B] using (by simpa [conn4B] using h)
  | succ n ih =>
    intro p q h
    simp only [conn4B, Bool.or_eq_true, List.any_eq_true, Bool.and_eq_true] at h
    simp only [conn8B, Bool.or_eq_true, List.any_eq_true, Bool.and_eq_true]
    rcases h with h | ⟨d, hd, ⟨⟨h1, h2⟩, h3⟩, h4⟩
    · exact Or.inl h
    · refine Or.inr ⟨d, ?_, ⟨⟨h1, h2⟩, h3⟩, ih _ _ h4⟩
      revert hd
      simp only [offPairs4, offPairs8, List.mem_cons, List.not_mem_nil, or_false]
      rintro (rfl | rfl | rfl | rfl) <;> simp

/-- The grid enumeration has one entry per pixel. -/
lemma gridList_length {W H : Nat} : (gridList W H).length = H * W := by
  simp [gridList]

/-- On the 5 x 40 counterexample grid, the 4-connected component of the
origin in the everywhere-true mask is the whole grid: 200 pixels. -/
lemma compSize4_full_5_40 : compSize4 5 40 fullMask (0, 0) = 200 := by
  unfold compSize4
  have hall : ∀ q ∈ gridList 5 40,
      (fullMask q.1 q.2 && conn4B 5 40 fullMask (5 * 40) (0, 0) q) = true := by
    intro q hq
    obtain ⟨k, hk, rfl⟩ := List.mem_map.mp hq
    simp only [List.mem_range] at hk
    rw [Bool.and_eq_true]
    refine ⟨rfl, ?_⟩
    exact conn4_full 200 0 0 (k / 5) (k % 5) (by omega) (by omega)
      (by omega) (by omega) (by omega)
  rw [List.filter_eq_self.mpr hall, gridList_length]

/-- On the 5 x 40 counterexample grid, the 8-connected component of the
origin in the everywhere-true mask is the whole grid as well. -/
lemma compSize8_full_5_40 : compSize8 5 40 fullMask (0, 0) = 200 := by
  unfold compSize8
  have hall : ∀ q ∈ gridList 5 40,
      (fullMask q.1 q.2 && conn8B 5 40 fullMask (5 * 40) (0, 0) q) = true := by
    intro q hq
    obtain ⟨k, hk, rfl⟩ := List.mem_map.mp hq
    simp only [List.mem_range] at hk
    rw [Bool.and_eq_true]
    refine ⟨rfl, ?_⟩
    exact conn8_of_conn4 200 (0, 0) (k / 5, k % 5)
      (conn4_full 200 0 0 (k / 5) (k % 5) (by omega) (by omega)
        (by omega) (by omega) (by omega))
  rw [List.filter_eq_self.mpr hall, gridList_length]


/-! ## SSIM lemmas: identical inputs score exactly 1 -/

/-- The square of a window mean is at most the window mean of the squares
(Cauchy-Schwarz over the 49 window samples): the sample variance the SSIM
denominator holds is nonnegative. -/
lemma filt_sq_le (W H : Nat) (f : Nat → Nat → ℚ) (y x : Nat) :
    filt W H f y x * filt W H f y x ≤ filt W H (fun u v => f u v * f u v) y x := by
  have h49 : ((win7.card : ℚ)) = 49 := by simp [win7]
  have key : (winSum W H f y x) ^ 2 ≤ 49 * winSum W H (fun u v => f u v * f u v) y x := by
    have hcs := sq_sum_le_card_mul_sum_sq (s := win7)
      (f := fun d => winSample W H f y x d)
    rw [h49] at hcs
    have hsq : ∑ d ∈ win7, (winSample W H f y x d) ^ 2 =
        winSum W H (fun u v => f u v * f u v) y x := by
      unfold winSum winSample
      exact Finset.sum_congr rfl fun d _ => by ring
    calc (winSum W H f y x) ^ 2 = (∑ d ∈ win7, winSample W H f y x d) ^ 2 := rfl
      _ ≤ 49 * ∑ d ∈ win7, (winSample W H f y x d) ^ 2 := hcs
      _ = 49 * winSum W H (fun u v => f u v * f u v) y x := by rw [hsq]
  unfold filt
  rw [div_mul_div_comm, div_le_div_iff₀ (by norm_num) (by norm_num)]
  nlinarith [key]

/-- structural_similarity of a channel against itself is exactly 1: the
numerator and denominator agree and the denominator is positive. -/
lemma ssimS_self (W H : Nat) (f : Nat → Nat → ℚ) (y x : Nat) :
    ssimS W H f f y x = 1 := by
  unfold ssimS
  have hv : 0 ≤ covNorm * (filt W H (fun u v => f u v * f u v) y x -
      filt W H f y x * filt W H f y x) := by
    have := filt_sq_le W H f y x
    have hcn : (0 : ℚ) ≤ covNorm := by norm_num [covNorm]
    exact mul_nonneg hcn (by linarith)
  have h1 : (0 : ℚ) < filt W H f y x * filt W H f y x +
      filt W H f y x * filt W H f y x + ssimC1 := by
    have := mul_self_nonneg (filt W H f y x)
    have hc1 : (0 : ℚ) < ssimC1 := by norm_num [ssimC1]
    linarith
  have h2 : (0 : ℚ) < covNorm * (filt W H (fun u v => f u v * f u v) y x -
      filt W H f y x * filt W H f y x) +
      covNorm * (filt W H (fun u v => f u v * f u v) y x -
        filt W H f y x * filt W H f y x) + ssimC2 := by
    have hc2 : (0 : ℚ) < ssimC2 := by norm_num [ssimC2]
    linarith
  rw [div_eq_one_iff_eq (by positivity)]
  ring

/-- The SSIM change mask of an image against itself is everywhere false: the
three channel scores are 1 and 1 is not below the 0.70 threshold. -/
lemma ssim_mask_self (blur : Blur) (img : Img) :
    ∀ y x, ssim_mask blur img img y x = false := by
  intro y x
  unfold ssim_mask
  rw [ssimS_self, ssimS_self, ssimS_self]
  simp only [decide_eq_false_iff_not]
  norm_num [SSIM_THRESHOLD]

/-! ## Extraction on identical inputs -/

/-- The sizes of an image against itself agree, so no resampling happens. -/
lemma resizedOf_self (resize : Resize) (img : Img) :
    resizedOf resize img img = img := by
  unfold resizedOf
  rw [if_pos ⟨rfl, rfl⟩]

/-- Carving with the (cleaned) all-false self-comparison mask zeroes every
pixel, all four channels. -/
lemma carve_self_zero (blur : Blur) (img : Img) :
    ∀ y x, (carve (clean_mask img.W img.H (ssim_mask blur img img)) img).pix y x =
      Pix.mk 0 0 0 0 := by
  intro y x
  have h0 := ssim_mask_self blur img
  show (if clean_mask img.W img.H (ssim_mask blur img img) y x
      then img.pix y x else Pix.mk 0 0 0 0) = Pix.mk 0 0 0 0
  rw [clean_mask_ptFalse h0, h0 y x]
  simp

/-- A buffer with zero alpha everywhere has no occupied pixel. -/
lemma occupied_empty_of_zero_alpha (img : Img)
    (h : ∀ y x, (img.pix y x).a = 0) : occupied img = ∅ := by
  unfold occupied
  rw [Finset.filter_eq_empty_iff]
  intro p _
  rw [h p.1 p.2]
  simp

/-- _trim_and_encode of a buffer with no occupied pixel: getbbox is None and
the untrimmed buffer is returned at the origin with its own size. -/
lemma trim_of_unoccupied (img : Img) (h : occupied img = ∅) :
    trim_and_encode img = ⟨0, 0, img.W, img.H, img⟩ := by
  unfold trim_and_encode getbbox
  rw [dif_neg]
  rw [h]
  exact Finset.not_nonempty_empty

/-- extract_element of an image against itself, on a canvas at least 7 x 7:
it succeeds and yields the untrimmed, entirely transparent full canvas. -/
lemma extract_element_self_full (blur : Blur) (resize : Resize) (img : Img)
    (h7W : 7 ≤ img.W) (h7H : 7 ≤ img.H) :
    ∃ res, extract_element blur resize img img = some res ∧ res.x = 0 ∧ res.y = 0 ∧
      res.width = img.W ∧ res.height = img.H ∧
      ∀ y x, res.image.pix y x = Pix.mk 0 0 0 0 := by
  have hzero := carve_self_zero blur img
  have hocc : occupied (carve (clean_mask img.W img.H (ssim_mask blur img img)) img) = ∅ :=
    occupied_empty_of_zero_alpha _ fun y x => by rw [hzero y x]
  refine ⟨⟨0, 0, img.W, img.H,
    carve (clean_mask img.W img.H (ssim_mask blur img img)) img⟩, ?_, rfl, rfl, rfl,
    rfl, hzero⟩
  unfold extract_element
  rw [if_neg (by omega), resizedOf_self, trim_of_unoccupied _ hocc]
  rfl

/-! ## Trimming lemmas -/

/-- Membership of the occupied pixel set. -/
lemma mem_occupied {img : Img} {p : Nat × Nat} :
    p ∈ occupied img ↔ p.1 < img.H ∧ p.2 < img.W ∧ (img.pix p.1 p.2).a ≠ 0 := by
  unfold occupied
  simp [Finset.mem_filter, Finset.mem_product, and_assoc]

/-- The crop of an image to its own alpha bounding box is tight: its bounding
box is the whole cropped buffer. -/
lemma getbbox_crop_tight (img : Img) (h : (occupied img).Nonempty) :
    getbbox (crop img ((occupied img).inf' h Prod.snd) ((occupied img).inf' h Prod.fst)
        ((occupied img).sup' h Prod.snd + 1) ((occupied img).sup' h Prod.fst + 1)) =
      some (0, 0,
        (occupied img).sup' h Prod.snd + 1 - (occupied img).inf' h Prod.snd,
        (occupied img).sup' h Prod.fst + 1 - (occupied img).inf' h Prod.fst) := by
  obtain ⟨qL, hqLmem, hqL⟩ := Finset.exists_mem_eq_inf' h Prod.snd
  obtain ⟨qU, hqUmem, hqU⟩ := Finset.exists_mem_eq_inf' h Prod.fst
  obtain ⟨qR, hqRmem, hqR⟩ := Finset.exists_mem_eq_sup' h Prod.snd
  obtain ⟨qLo, hqLomem, hqLo⟩ := Finset.exists_mem_eq_sup' h Prod.fst
  set L := (occupied img).inf' h Prod.snd with hLdef
  set U := (occupied img).inf' h Prod.fst with hUdef
  set R := (occupied img).sup' h Prod.snd + 1 with hRdef
  set LO := (occupied img).sup' h Prod.fst + 1 with hLOdef
  set c := crop img L U R LO with hcdef
  have hcW : c.W = R - L := rfl
  have hcH : c.H = LO - U := rfl
  have hcpix : ∀ y x, c.pix y x = img.pix (U + y) (L + x) := fun y x => rfl
  -- coordinate bounds of any occupied pixel
  have hbound : ∀ q ∈ occupied img,
      L ≤ q.2 ∧ q.2 + 1 ≤ R ∧ U ≤ q.1 ∧ q.1 + 1 ≤ LO ∧ q.1 < img.H ∧ q.2 < img.W := by
    intro q hq
    have h1 : L ≤ q.2 := Finset.inf'_le _ hq
    have h2 : q.2 ≤ R - 1 := Finset.le_sup' _ hq
    have h3 : U ≤ q.1 := Finset.inf'_le _ hq
    have h4 : q.1 ≤ LO - 1 := Finset.le_sup' _ hq
    have h5 := mem_occupied.mp hq
    exact ⟨h1, by omega, h3, by omega, h5.1, h5.2.1⟩
  -- the forward shift of an occupied pixel lands in the occupied set of c
  have hfwd : ∀ q ∈ occupied img, (q.1 - U, q.2 - L) ∈ occupied c := by
    intro q hq
    obtain ⟨h1, h2, h3, h4, _, _⟩ := hbound q hq
    have ha := (mem_occupied.mp hq).2.2
    apply mem_occupied.mpr
    refine ⟨by rw [hcH]; omega, by rw [hcW]; omega, ?_⟩
    rw [hcpix]
    have e1 : U + (q.1 - U) = q.1 := by omega
    have e2 : L + (q.2 - L) = q.2 := by omega
    rw [e1, e2]
    exact ha
  -- and every occupied pixel of c comes from inside the grid of img
  have hback : ∀ p ∈ occupied c, (img.pix (U + p.1) (L + p.2)).a ≠ 0 ∧
      p.1 < LO - U ∧ p.2 < R - L := by
    intro p hp
    have h5 := mem_occupied.mp hp
    rw [hcH] at h5
    rw [hcW] at h5
    exact ⟨by rw [← hcpix]; exact h5.2.2, h5.1, h5.2.1⟩
  have hLR : L + 1 ≤ R := by
    have := hbound qL hqLmem
    omega
  have hULo : U + 1 ≤ LO := by
    have := hbound qU hqUmem
    omega
  have hne : (occupied c).Nonempty := ⟨_, hfwd qL hqLmem⟩
  -- the four extrema of the cropped occupied set
  have hinfx : (occupied c).inf' hne Prod.snd = 0 := by
    have hle : (occupied c).inf' hne Prod.snd ≤ qL.2 - L :=
      Finset.inf'_le Prod.snd (hfwd qL hqLmem)
    omega
  have hinfy : (occupied c).inf' hne Prod.fst = 0 := by
    have hle : (occupied c).inf' hne Prod.fst ≤ qU.1 - U :=
      Finset.inf'_le Prod.fst (hfwd qU hqUmem)
    omega
  have hsupx : (occupied c).sup' hne Prod.snd = R - 1 - L := by
    apply le_antisymm
    · apply Finset.sup'_le
      intro p hp
      have := (hback p hp).2.2
      omega
    · have hge : qR.2 - L ≤ (occupied c).sup' hne Prod.snd :=
        Finset.le_sup' Prod.snd (hfwd qR hqRmem)
      omega
  have hsupy : (occupied c).sup' hne Prod.fst = LO - 1 - U := by
    apply le_antisymm
    · apply Finset.sup'_le
      intro p hp
      have := (hback p hp).2.1
      omega
    · have hge : qLo.1 - U ≤ (occupied c).sup' hne Prod.fst :=
        Finset.le_sup' Prod.fst (hfwd qLo hqLomem)
      omega
  unfold getbbox
  rw [dif_pos hne, hinfx, hinfy, hsupx, hsupy]
  have e3 : R - 1 - L + 1 = R - L := by omega
  have e4 : LO - 1 - U + 1 = LO - U := by omega
  rw [e3, e4]

/-- Claim C9: _trim_and_encode is idempotent: trimming the cropped buffer a
second time yields offsets x = 0, y = 0, the same width and height, and the
same pixel buffer (both in the bbox case and in the fully-transparent
untrimmed case). -/
theorem trim_and_encode_idempotent (img : Img) :
    (trim_and_encode (trim_and_encode img).image).x = 0 ∧
      (trim_and_encode (trim_and_encode img).image).y = 0 ∧
      (trim_and_encode (trim_and_encode img).image).width = (trim_and_encode img).width ∧
      (trim_and_encode (trim_and_encode img).image).height = (trim_and_encode img).height ∧
      ∀ y x, (trim_and_encode (trim_and_encode img).image).image.pix y x =
        (trim_and_encode img).image.pix y x := by
  by_cases h : (occupied img).Nonempty
  · have hbb : getbbox img = some ((occupied img).inf' h Prod.snd,
        (occupied img).inf' h Prod.fst, (occupied img).sup' h Prod.snd + 1,
        (occupied img).sup' h Prod.fst + 1) := by
      unfold getbbox
      rw [dif_pos h]
    have hbb2 := getbbox_crop_tight img h
    refine ⟨?_, ?_, ?_, ?_, fun y x => ?_⟩ <;>
      simp only [trim_and_encode, hbb, hbb2] <;>
      simp [crop]
  · have hbb : getbbox img = none := by
      unfold getbbox
      rw [dif_neg h]
    refine ⟨?_, ?_, ?_, ?_, fun y x => ?_⟩ <;> simp [trim_and_encode, hbb]

/-- Claim C7: on a buffer whose every grid pixel has zero alpha, getbbox
finds nothing (it inspects only the alpha channel) and _trim_and_encode
returns the full untrimmed buffer at x = 0, y = 0 with the original size. -/
theorem trim_fully_transparent (img : Img)
    (h : ∀ y x, y < img.H → x < img.W → (img.pix y x).a = 0) :
    trim_and_encode img = ⟨0, 0, img.W, img.H, img⟩ := by
  apply trim_of_unoccupied
  unfold occupied
  rw [Finset.filter_eq_empty_iff]
  intro p hp
  rw [Finset.mem_product, Finset.mem_range, Finset.mem_range] at hp
  rw [h p.1 p.2 hp.1 hp.2]
  simp

/-- Claim C7 witness: the 2 x 1 buffer holding a red pixel of zero alpha is
returned untrimmed (its nonzero colour channel does not count as occupied). -/
theorem trim_fully_transparent_witness :
    trim_and_encode img2x1 = ⟨0, 0, 2, 1, img2x1⟩ :=
  trim_fully_transparent img2x1 (by
    intro y x _ _
    show (if x = 0 then Pix.mk 255 0 0 0 else Pix.mk 0 0 0 0).a = 0
    split <;> rfl)

/-! ## Peel loop lemmas -/

/-- extract_element succeeds whenever the current image state is at least
7 x 7, and yields the trimmed carve of the cleaned SSIM mask. -/
lemma extract_element_some (blur : Blur) (resize : Resize) (a b : Img)
    (hW : 7 ≤ a.W) (hH : 7 ≤ a.H) :
    extract_element blur resize a b =
      some (trim_and_encode (carve (clean_mask a.W a.H
        (ssim_mask blur a (resizedOf resize a b))) a)) := by
  unfold extract_element
  rw [if_neg (by omega)]

/-- When every reconcile round-trip leaves the remaining descriptors
unchanged and removal keeps the image size, the peel loop terminates within
length-many iterations and accumulates exactly one layer per descriptor, in
extraction order: topmost first, the bottom descriptor extracted as the full
canvas. -/
lemma extract_loop_done (blur : Blur) (resize : Resize) (C : Collaborators)
    (hrec : ∀ i r, update_element_references (C.reconcileRaw i r) r = r)
    (hW : ∀ i d, (C.remove i d).W = i.W) (hH : ∀ i d, (C.remove i d).H = i.H) :
    ∀ fuel img descs acc, 7 ≤ img.W → 7 ≤ img.H → descs ≠ [] → descs.length ≤ fuel →
      ∃ l, extract_loop blur resize C fuel img descs acc = .done (acc ++ l) ∧
        l.map metaOf = descs.reverse.map edMeta := by
  intro fuel
  induction fuel with
  | zero =>
    intro img descs acc _ _ hne hlen
    cases descs with
    | nil => exact absurd rfl hne
    | cons d rest => simp at hlen
  | succ n ih =>
    intro img descs acc h7W h7H hne hlen
    match descs with
    | [] => exact absurd rfl hne
    | [d] =>
      refine ⟨[mkExtracted d (extract_full_image img)], ?_, ?_⟩
      · simp [extract_loop]
      · simp [metaOf, edMeta, mkExtracted]
    | d :: d2 :: rest =>
      have hcons : (d :: d2 :: rest) ≠ [] := by simp
      set cur := (d :: d2 :: rest).getLast hcons with hcur
      set remaining := (d :: d2 :: rest).dropLast with hremaining
      have hrlen : remaining.length = rest.length + 1 := by
        simp [hremaining, List.length_dropLast]
      have hrne : remaining ≠ [] := by
        intro he
        rw [he] at hrlen
        simp at hrlen
      have hsplit : remaining ++ [cur] = d :: d2 :: rest :=
        List.dropLast_append_getLast hcons
      set ex := trim_and_encode (carve (clean_mask img.W img.H
        (ssim_mask blur img (resizedOf resize img (C.isolate img cur)))) img) with hexdef
      have hex : extract_element blur resize img (C.isolate img cur) = some ex :=
        extract_element_some blur resize img (C.isolate img cur) h7W h7H
      have hlen2 : remaining.length ≤ n := by
        simp only [List.length_cons] at hlen
        omega
      obtain ⟨l2, hl2, hm2⟩ := ih (C.remove img cur) remaining
        (acc ++ [mkExtracted cur ex])
        (by rw [hW]; exact h7W) (by rw [hH]; exact h7H) hrne hlen2
      refine ⟨mkExtracted cur ex :: l2, ?_, ?_⟩
      · show extract_loop blur resize C (n + 1) img (d :: d2 :: rest) acc = _
        rw [extract_loop]
        simp only [hex]
        rw [if_neg hrne, hrec, hl2]
        rw [List.append_assoc]
        rfl
      · have : (d :: d2 :: rest).reverse = cur :: remaining.reverse := by
          rw [← hsplit]
          simp
        rw [this]
        simp only [List.map_cons, hm2]
        rfl

/-- One non-terminal iteration of the peel loop, unfolded: extract the last
descriptor, remove it, drop it from the list and reconcile the rest. -/
lemma extract_loop_step (blur : Blur) (resize : Resize) (C : Collaborators)
    (img : Img) (d d2 : ElementDescription) (rest : List ElementDescription)
    (acc : List ExtractedElement) (fuel : Nat)
    (h7W : 7 ≤ img.W) (h7H : 7 ≤ img.H) :
    extract_loop blur resize C (fuel + 1) img (d :: d2 :: rest) acc =
      extract_loop blur resize C fuel
        (C.remove img ((d :: d2 :: rest).getLast (by simp)))
        (update_element_references
          (C.reconcileRaw (C.remove img ((d :: d2 :: rest).getLast (by simp)))
            ((d :: d2 :: rest).dropLast))
          ((d :: d2 :: rest).dropLast))
        (acc ++ [mkExtracted ((d :: d2 :: rest).getLast (by simp))
          (trim_and_encode (carve (clean_mask img.W img.H (ssim_mask blur img
            (resizedOf resize img
              (C.isolate img ((d :: d2 :: rest).getLast (by simp)))))) img))]) := by
  rw [extract_loop]
  rw [extract_element_some blur resize img _ h7W h7H]
  dsimp only
  rw [if_neg]
  intro he
  have := congrArg List.length he
  simp [List.length_dropLast] at this

/-- Claim C2: with a reconcile collaborator that keeps answering with the
same two descriptors, the peel loop has no iteration cap: whatever the fuel,
it is exhausted with the loop still running (the loop never terminates). -/
theorem extract_loop_no_iteration_cap :
    ∀ fuel acc, extract_loop blur0 resize0 growC fuel white8 [dBg, dBg] acc =
      RunResult.running := by
  intro fuel
  induction fuel with
  | zero => intro acc; rfl
  | succ n ih =>
    intro acc
    rw [extract_loop_step blur0 resize0 growC white8 dBg dBg [] acc n
      (by decide) (by decide)]
    exact ih _

/-- Claim C8: whenever the loop reaches the single-remaining terminal case,
the appended layer is the full-canvas extraction, which always sits at
x = 0, y = 0 with the current image's width and height. -/
theorem extract_loop_single_full_canvas (blur : Blur) (resize : Resize)
    (C : Collaborators) (fuel : Nat) (img : Img) (d : ElementDescription)
    (acc : List ExtractedElement) :
    extract_loop blur resize C (fuel + 1) img [d] acc =
      .done (acc ++ [mkExtracted d (extract_full_image img)]) ∧
      (extract_full_image img).x = 0 ∧ (extract_full_image img).y = 0 ∧
      (extract_full_image img).width = img.W ∧
      (extract_full_image img).height = img.H := by
  refine ⟨?_, rfl, rfl, rfl, rfl⟩
  rw [extract_loop]

/-- Claim C5: an empty or failed reconcile response is treated as no change,
never as all removed: update_element_references keeps the prior remaining
list, and a run whose reconcile calls all fail still completes, one layer
per descriptor. -/
theorem reconcile_failure_keeps_remaining :
    (∀ r : List ElementDescription, update_element_references none r = r) ∧
      (∀ r : List ElementDescription, update_element_references (some []) r = r) ∧
      ∀ fuel (d : ElementDescription) (ds : List ElementDescription),
        ds.length + 1 ≤ fuel →
        ∃ l, extract_loop blur0 resize0 noneC fuel white8 (d :: ds) [] = .done l ∧
          l.length = ds.length + 1 := by
  refine ⟨fun r => rfl, fun r => rfl, ?_⟩
  intro fuel d ds hlen
  obtain ⟨l, hl, hm⟩ := extract_loop_done blur0 resize0 noneC
    (fun i r => rfl) (fun _ _ => rfl) (fun _ _ => rfl) fuel white8 (d :: ds) []
    (by decide) (by decide) (by simp) (by simpa using hlen)
  refine ⟨l, by simpa using hl, ?_⟩
  have hlenm := congrArg List.length hm
  simpa using hlenm

/-- Claim C5 witness: a concrete two-descriptor run whose reconcile call
fails still completes with both layers. -/
theorem reconcile_failure_keeps_remaining_witness :
    ∃ l, extract_loop blur0 resize0 noneC 2 white8 [dShape, dBg] [] = .done l ∧
      l.length = 2 :=
  reconcile_failure_keeps_remaining.2.2 2 dShape [dBg] (by decide)

/-- Claim C1: the peel loop logic under the intended collaborator contract.
With a describe result of three descriptors and every isolate, remove and
reconcile call succeeding (reconcile reporting every candidate still
visible), the orchestrator performs exactly three extraction steps and
returns three layers whose metadata is the original bottom-to-top order,
the reverse of the topmost-first removal sequence. -/
theorem extract_all_three_layers :
    ∃ l, extract_all_elements blur0 resize0 idC 3 white8 [dBg, dShape, dText] =
        .done l ∧
      l.map metaOf = [edMeta dBg, edMeta dShape, edMeta dText] ∧ l.length = 3 := by
  have hrec : ∀ i r, update_element_references (idC.reconcileRaw i r) r = r := by
    intro i r
    cases r <;> rfl
  obtain ⟨l, hl, hm⟩ := extract_loop_done blur0 resize0 idC hrec
    (fun _ _ => rfl) (fun _ _ => rfl) 3 white8 [dBg, dShape, dText] []
    (by decide) (by decide) (by simp) (by simp)
  refine ⟨l.reverse, ?_, ?_, ?_⟩
  · unfold extract_all_elements
    rw [if_neg (by simp)]
    rw [hl]
    simp
  · rw [List.map_reverse, hm]
    simp
  · have hlenm := congrArg List.length hm
    simpa using hlenm

/-- Claim C6 counterexample: the GPT collaborator calls are not retried and
an empty response never becomes fatal: one empty reconcile response already
yields the successful fallback to the prior descriptors, and one empty
describe response yields the empty element list. -/
theorem gpt_empty_response_not_retried :
    update_element_references none [dBg] = [dBg] ∧
      describe_elements (none : Option (List ElementDescription)) = [] :=
  ⟨rfl, rfl⟩

/-- Claim C6 (amended): only the Gemini edit call retries, up to
MAX_RETRIES = 3 attempts, sleeping the increasing delays 1s then 2s between
attempts before the failure becomes fatal, and a first-attempt success makes
exactly one attempt with no delay; the GPT describe and reconcile calls
consume a single response, an empty one falling back non-fatally. -/
theorem edit_retry_bounded :
    edit_image (fun _ => (none : Option Img)) = (none, 3, [1, 2]) ∧
      edit_image (fun _ => some white8) = (some white8, 1, []) ∧
      (∀ r : List ElementDescription, update_element_references none r = r) ∧
      (∀ r : List ElementDescription, update_element_references (some []) r = r) ∧
      describe_elements (none : Option (List ElementDescription)) = [] := by
  refine ⟨?_, rfl, fun r => rfl, fun r => rfl, rfl⟩
  show edit_image_go (fun _ => (none : Option Img)) 0 (MAX_RETRIES - 1) = _
  norm_num [edit_image_go, MAX_RETRIES, RETRY_DELAY]

/-- Claim C3 counterexample: the everywhere-true mask on a 5 x 40 grid is a
single region of 200 = MIN_REGION_SIZE pixels (8-connected and 4-connected
alike), the twice-eroded mask is nonempty so the early return is not taken,
and the closing / opening erosions with zero border padding then erase
everything: _clean_mask returns the empty mask. -/
theorem clean_mask_empties_big_region :
    hasRegion8 5 40 fullMask MIN_REGION_SIZE ∧
      maskEmptyB 5 40 (clean_mask 5 40 fullMask) = true := by
  constructor
  · exact ⟨(0, 0), by decide, by decide, rfl, by rw [compSize8_full_5_40]; decide⟩
  · exact maskEmptyB_of fun y x => clean_mask_narrow (by decide) (by decide) y x

/-- Claim C3 (amended): the region-size filtering of _clean_mask never leaves
the empty mask when the input holds a 4-connected region of at least
MIN_REGION_SIZE pixels: either the twice-eroded mask is empty and the input
is returned unchanged, or the mask entering the morphological smoothing is
nonempty (the half-floor fallback keeps the big region).  The smoothing
itself can still empty the final mask near the grid border. -/
theorem clean_mask_filter_stage_nonempty (W H : Nat) (m : Mask)
    (h : hasRegion4 W H m MIN_REGION_SIZE) :
    (maskNonemptyB W H (erode2 W H m) = false ∧ clean_mask W H m = m) ∨
      maskNonemptyB W H (cleaned_stage W H m) = true := by
  cases hc : maskNonemptyB W H (erode2 W H m)
  · left
    refine ⟨rfl, ?_⟩
    unfold clean_mask
    rw [hc]
    simp
  · right
    unfold cleaned_stage
    by_cases hk : maskNonemptyB W H (keepBig W H (erode2 W H m) MIN_REGION_SIZE) = true
    · rw [if_pos hk]
      exact hk
    · rw [if_neg hk]
      obtain ⟨p, hpy, hpx, hm, hsz⟩ := h
      apply maskNonemptyB_iff.mpr
      refine ⟨p.1, p.2, hpy, hpx, ?_⟩
      unfold keepBig
      rw [hm]
      simp only [Bool.true_and, decide_eq_true_eq]
      have hp : (p.1, p.2) = p := rfl
      rw [hp]
      have h200 : MIN_REGION_SIZE = 200 := rfl
      omega

/-- Claim C3 witness: the 5 x 40 everywhere-true mask holds a 4-connected
region of MIN_REGION_SIZE pixels, and the filtering stage keeps it. -/
theorem clean_mask_filter_stage_nonempty_witness :
    (maskNonemptyB 5 40 (erode2 5 40 fullMask) = false ∧
        clean_mask 5 40 fullMask = fullMask) ∨
      maskNonemptyB 5 40 (cleaned_stage 5 40 fullMask) = true :=
  clean_mask_filter_stage_nonempty 5 40 fullMask
    ⟨(0, 0), by decide, by decide, rfl, by rw [compSize4_full_5_40]; decide⟩

/-- Claim C4 (amended): extract_element on identical before and after
buffers of size at least the 7-pixel SSIM window succeeds and yields a
fully transparent full-canvas result: x = 0, y = 0, the original width and
height, and every pixel of the untrimmed buffer zero in all four channels
(not a zero-area result). -/
theorem extract_identical_full_transparent (blur : Blur) (resize : Resize)
    (img : Img) (h7W : 7 ≤ img.W) (h7H : 7 ≤ img.H) :
    ∃ res, extract_element blur resize img img = some res ∧ res.x = 0 ∧
      res.y = 0 ∧ res.width = img.W ∧ res.height = img.H ∧
      ∀ y x, res.image.pix y x = Pix.mk 0 0 0 0 :=
  extract_element_self_full blur resize img h7W h7H

/-- Claim C4 witness: the concrete 8 x 8 white canvas against itself. -/
theorem extract_identical_full_transparent_witness :
    ∃ res, extract_element blur0 resize0 white8 white8 = some res ∧ res.x = 0 ∧
      res.y = 0 ∧ res.width = white8.W ∧ res.height = white8.H ∧
      ∀ y x, res.image.pix y x = Pix.mk 0 0 0 0 :=
  extract_identical_full_transparent blur0 resize0 white8 (by decide) (by decide)

/-- Claim C4 counterexample: extract_element of the 8 x 8 white canvas
against itself yields width 8, not a zero-area result with width 0 and
height 0. -/
theorem extract_identical_not_zero_area :
    ∃ res, extract_element blur0 resize0 white8 white8 = some res ∧
      ¬(res.width = 0 ∧ res.height = 0) := by
  obtain ⟨res, heq, _, _, hw, _, _⟩ :=
    extract_element_self_full blur0 resize0 white8 (by decide) (by decide)
  refine ⟨res, heq, ?_⟩
  rintro ⟨h0, _⟩
  rw [hw] at h0
  exact absurd h0 (by decide)

/-- Claim C10: in the untrimmed result buffer of extract_element (the carve
of the original by the cleaned SSIM mask), every selected pixel equals the
corresponding pixel of the before image and every non-selected pixel has all
four channels zero. -/
theorem carve_pixel_semantics (blur : Blur) (resize : Resize) (a b : Img)
    (y x : Nat) (hy : y < a.H) (hx : x < a.W) :
    (clean_mask a.W a.H (ssim_mask blur a (resizedOf resize a b)) y x = true →
      (carve (clean_mask a.W a.H (ssim_mask blur a (resizedOf resize a b))) a).pix y x =
        a.pix y x) ∧
    (clean_mask a.W a.H (ssim_mask blur a (resizedOf resize a b)) y x = false →
      (carve (clean_mask a.W a.H (ssim_mask blur a (resizedOf resize a b))) a).pix y x =
        Pix.mk 0 0 0 0) := by
  constructor
  · intro hmask
    show (if clean_mask a.W a.H (ssim_mask blur a (resizedOf resize a b)) y x
        then a.pix y x else Pix.mk 0 0 0 0) = a.pix y x
    rw [hmask]
    simp
  · intro hmask
    show (if clean_mask a.W a.H (ssim_mask blur a (resizedOf resize a b)) y x
        then a.pix y x else Pix.mk 0 0 0 0) = Pix.mk 0 0 0 0
    rw [hmask]
    simp

/-- Claim C10 witness: the carve semantics at the origin pixel of the 8 x 8
white canvas compared against the 8 x 8 black canvas. -/
theorem carve_pixel_semantics_witness :
    (clean_mask white8.W white8.H
        (ssim_mask blur0 white8 (resizedOf resize0 white8 black8)) 0 0 = true →
      (carve (clean_mask white8.W white8.H
        (ssim_mask blur0 white8 (resizedOf resize0 white8 black8))) white8).pix 0 0 =
        white8.pix 0 0) ∧
    (clean_mask white8.W white8.H
        (ssim_mask blur0 white8 (resizedOf resize0 white8 black8)) 0 0 = false →
      (carve (clean_mask white8.W white8.H
        (ssim_mask blur0 white8 (resizedOf resize0 white8 black8))) white8).pix 0 0 =
        Pix.mk 0 0 0 0) :=
  carve_pixel_semantics blur0 resize0 white8 black8 0 0 (by decide) (by decide)
